import Mathlib

/-!
Verification of the matching / indexing / rewriting core of the
obsidian-better-auto-linker plugin (src/main.js), shallowly embedded in Lean.

Text is modelled as `List Char`; positions are `Nat` offsets.  The plugin
builds JavaScript regexes from note titles; the constructed patterns only
ever use a small fragment of regex syntax (backslash escapes, literal
characters and plain groups, wrapped in a fixed negative lookbehind and a
fixed negative lookahead), so that fragment is embedded here: pattern
strings are built exactly as in the source (`escapeRegExp` and the inline
parenthesis rewrite), then tokenized and matched.  Constructs that cannot
occur in a constructed pattern (bare quantifiers, character classes,
anchors — every syntactically significant character is escaped by
`escapeRegExp` before the pattern is assembled) make the tokenizer fail,
which models a `RegExp` constructor error, as does an unbalanced group.
The `$`-substitution patterns of JavaScript replacement strings are not
modelled; replacement strings are inserted literally.
-/

/-- Text: a document body, a title, a path. -/
abbrev Str := List Char

/-- The plugin settings (`loadSettings`, src/main.js lines 26-34). -/
structure Settings where
  excludedFolders : List Str
  pageSize : Nat
  enableWikiLinks : Bool
  respectCase : Bool
  excludeFrontmatter : Bool
  deriving DecidableEq

/-- The defaults assigned in `loadSettings`. -/
def defaultSettings : Settings :=
  { excludedFolders := [], pageSize := 10, enableWikiLinks := false,
    respectCase := false, excludeFrontmatter := true }

/-- One entry of `noteTitlesCache`: `{title: file.basename, path: file.path}`. -/
structure NoteEntry where
  title : Str
  path : Str
  deriving DecidableEq

/-- A vault file as seen by the cache code: its path, basename, extension
and whether it is a regular file (`instanceof TFile`). -/
structure VaultFile where
  basename : Str
  path : Str
  extension : Str
  isTFile : Bool
  deriving DecidableEq

/-- The mutable index state: `this.noteTitlesCache` and `this.cacheUpToDate`. -/
structure IndexState where
  noteTitlesCache : List NoteEntry
  cacheUpToDate : Bool
  deriving DecidableEq

/-- One element of `detectedLinks` (src/main.js lines 227-233). -/
structure DetectedLink where
  title : Str
  context : Str
  originalMatch : Str
  notePath : Str
  matchIndex : Nat × Nat
  deriving DecidableEq

/-- The characters escaped by `escapeRegExp`'s character class
`[.*+?^$\x7b\x7d()|[\]\\]` (src/main.js line 281). -/
def isSpecialChar (c : Char) : Bool :=
  c = '.' || c = '*' || c = '+' || c = '?' || c = '^' || c = '$' ||
  c = Char.ofNat 123 || c = Char.ofNat 125 ||
  c = '(' || c = ')' || c = '|' || c = '[' || c = ']' || c = '\\'

/-- `escapeRegExp` (src/main.js lines 280-282): prefix every syntactically
significant regex character with a backslash. -/
def escapeRegExp : Str → Str
  | [] => []
  | c :: r => (if isSpecialChar c then ['\\', c] else [c]) ++ escapeRegExp r

/-- The inline transformation `.replace(/([()])/g, '\\\\?$1')` applied to the
escaped title (src/main.js line 220) and to the escaped matched text
(line 267): every parenthesis character is replaced by two backslashes, a
question mark and the parenthesis itself. -/
def parenFlexReplace : Str → Str
  | [] => []
  | c :: r =>
      (if c = '(' || c = ')' then ['\\', '\\', '?', c] else [c]) ++ parenFlexReplace r

/-- A token of the regex fragment the constructed patterns live in:
a literal character, or a plain group delimiter. -/
inductive Tok where
  | lit (c : Char)
  | openG
  | closeG
  deriving DecidableEq

/-- Tokenizer for the constructed pattern fragment.  `\c` is a literal
`c`; bare parentheses delimit groups; any other bare syntactically
significant character (a quantifier, class, anchor, alternation or a
dangling backslash) cannot occur in a pattern assembled from
`escapeRegExp` output and is rejected, modelling a regex-syntax error. -/
def tokenizePattern : Str → Option (List Tok)
  | [] => some []
  | c :: r =>
      if c = '\\' then
        match r with
        | [] => none
        | d :: r' => (tokenizePattern r').map (Tok.lit d :: ·)
      else if c = '(' then (tokenizePattern r).map (Tok.openG :: ·)
      else if c = ')' then (tokenizePattern r).map (Tok.closeG :: ·)
      else if isSpecialChar c then none
      else (tokenizePattern r).map (Tok.lit c :: ·)

/-- Group balance check: a pattern with unbalanced groups makes the
`RegExp` constructor throw. -/
def balancedAux : List Tok → Nat → Bool
  | [], 0 => true
  | [], _ + 1 => false
  | Tok.lit _ :: r, d => balancedAux r d
  | Tok.openG :: r, d => balancedAux r (d + 1)
  | Tok.closeG :: _, 0 => false
  | Tok.closeG :: r, d + 1 => balancedAux r d

/-- The literal characters a token list matches: groups are transparent
for matching (none of the constructed patterns quantifies a group), so a
balanced token list matches exactly its literal character sequence. -/
def litsOf : List Tok → Str
  | [] => []
  | Tok.lit c :: r => c :: litsOf r
  | _ :: r => litsOf r

/-- Compile a matched text for the rewrite step the way the source does
(src/main.js line 267): escape it, apply the parenthesis rewrite,
tokenize, check group balance — the `\b…\b` replacement pattern has no
wrapping group, so its groups must balance on their own.  The result is
the literal character sequence the pattern matches; `none` models a
thrown regex-syntax error. -/
def compilePattern (t : Str) : Option Str :=
  match tokenizePattern (parenFlexReplace (escapeRegExp t)) with
  | none => none
  | some toks => if balancedAux toks 0 then some (litsOf toks) else none

/-- The literal characters captured by the scan pattern's wrapping group
(group 1): the template `(?<!\[\[)(…)(?!\|?\]\])` opens a capture group
around the compiled title, so a close-group token of the title at
relative depth 0 closes that wrapping group early and the remaining
literals of the match fall outside the capture. -/
def group1Lits : List Tok → Nat → Str
  | [], _ => []
  | Tok.lit c :: r, d => c :: group1Lits r d
  | Tok.openG :: r, d => group1Lits r (d + 1)
  | Tok.closeG :: _, 0 => []
  | Tok.closeG :: r, d + 1 => group1Lits r d

/-- Compile a title for the scan the way the source does (src/main.js
lines 216-220): escape it, apply the parenthesis rewrite, tokenize, and
check the balance of the whole constructed pattern — including the
template's wrapping group, so a stray close paren in the title can be
closed by it (title cores like the one of ")(" still build a valid
regex).  The result is the pair of the literal character sequence of the
whole match (match[0]) and of the wrapping group's capture (match[1]);
`none` models a thrown regex-syntax error. -/
def compileScanPattern (t : Str) : Option (Str × Str) :=
  match tokenizePattern (parenFlexReplace (escapeRegExp t)) with
  | none => none
  | some toks =>
      if balancedAux (Tok.openG :: (toks ++ [Tok.closeG])) 0 then
        some (litsOf toks, group1Lits toks 0)
      else none

/-- Case-insensitive character comparison, modelling the `i` regex flag. -/
def ciEq (a b : Char) : Bool := a.toLower = b.toLower

/-- Does `p` occur, case-insensitively, at the front of `s`? -/
def ciStarts : Str → Str → Bool
  | [], _ => true
  | _ :: _, [] => false
  | a :: as, b :: bs => ciEq a b && ciStarts as bs

/-- Does `p` occur literally at the front of `s`? -/
def chStarts : Str → Str → Bool
  | [], _ => true
  | _ :: _, [] => false
  | a :: as, b :: bs => a = b && chStarts as bs

/-- The fixed negative lookbehind `(?<!\[\[)`: fails exactly when the two
characters immediately before position `q` are `[[`. -/
def lookbehindOk (content : Str) (q : Nat) : Bool :=
  !(decide (2 ≤ q) && chStarts ['[', '['] (content.drop (q - 2)))

/-- The fixed negative lookahead `(?!\|?\]\])`: fails exactly when the
text at position `e` starts with `]]` or `|]]`. -/
def lookaheadOk (content : Str) (e : Nat) : Bool :=
  !(chStarts [']', ']'] (content.drop e) || chStarts ['|', ']', ']'] (content.drop e))

/-- One match attempt of the full constructed pattern at position `q`:
lookbehind, then the literal title pattern (case-insensitively), then
lookahead after the consumed span.  Returns the consumed length. -/
def attemptAt (lits content : Str) (q : Nat) : Option Nat :=
  if lookbehindOk content q && ciStarts lits (content.drop q) &&
      lookaheadOk content (q + lits.length) then
    some lits.length
  else none

/-- The engine's bump-along search: try positions `q`, `q+1`, … for `k`
positions, return the first position where the pattern matches. -/
def findFrom (lits content : Str) : Nat → Nat → Option Nat
  | 0, _ => none
  | k + 1, q => if (attemptAt lits content q).isSome then some q else findFrom lits content k (q + 1)

/-- `regex.exec(content)` with `lastIndex = p`: the first match at a
position in `[p, content.length]`. -/
def findMatch (lits content : Str) (p : Nat) : Option Nat :=
  findFrom lits content (content.length + 1 - p) p

/-- The 20-character context window around a match
(src/main.js line 225): `slice(max(0, q-20), q) + match + slice(q+L, q+L+20)`. -/
def contextOf (content : Str) (q L : Nat) : Str :=
  ((content.drop (q - 20)).take (q - (q - 20))) ++ ((content.drop q).take L) ++
    ((content.drop (q + L)).take 20)

/-- The `while ((match = regex.exec(content)) !== null)` loop for one
title (src/main.js lines 222-234), fuelled: each `exec` finds the first
match at or after `lastIndex` and advances `lastIndex` by the length of
`match[0]` (the full match, `lits`) — which is zero for a zero-length
match, so the loop need not terminate; `none` models divergence (fuel
exhausted).  The emitted `originalText` is `match[1]` (line 224), the
text captured by the wrapping group (`cap`), and the context window
(line 225) is sized by `originalText`, while `matchIndex` (line 232)
spans the full match. -/
def scanTitleLoop (note : NoteEntry) (lits cap content : Str) :
    Nat → Nat → List DetectedLink → Option (List DetectedLink)
  | 0, _, _ => none
  | fuel + 1, p, acc =>
      match findMatch lits content p with
      | none => some acc
      | some q =>
          scanTitleLoop note lits cap content fuel (q + lits.length)
            (acc ++ [DetectedLink.mk note.title (contextOf content q cap.length)
              ((content.drop q).take cap.length) note.path (q, q + lits.length)])

/-- Outcome of a scan: the detected links, or a thrown regex-syntax
error (which aborts the whole scan, as an exception would). -/
inductive ScanOutcome where
  | ok (links : List DetectedLink)
  | regexError
  deriving DecidableEq

/-- The per-title loop of `detectPotentialLinks` over the cache, in
collection order, accumulating matches; `none` models divergence. -/
def scanAllTitles : List NoteEntry → Str → Nat → List DetectedLink → Option ScanOutcome
  | [], _, _, acc => some (ScanOutcome.ok acc)
  | note :: rest, content, fuel, acc =>
      match compileScanPattern note.title with
      | none => some ScanOutcome.regexError
      | some (lits, cap) =>
          match scanTitleLoop note lits cap content fuel 0 [] with
          | none => none
          | some links => scanAllTitles rest content fuel (acc ++ links)

/-- The unsorted detection result of `detectPotentialLinks`
(src/main.js lines 212-235, before the final sort). -/
def detectPotentialLinksRaw (cache : List NoteEntry) (content : Str) (fuel : Nat) :
    Option ScanOutcome :=
  scanAllTitles cache content fuel []

/-- Stable insertion of a link into a list sorted by `matchIndex[0]`: the
link goes after every element with a strictly smaller or equal start. -/
def insertByStart (x : DetectedLink) : List DetectedLink → List DetectedLink
  | [] => [x]
  | y :: ys => if y.matchIndex.1 < x.matchIndex.1 then y :: insertByStart x ys
    else x :: y :: ys

/-- The final `.sort((a, b) => a.matchIndex[0] - b.matchIndex[0])`
(src/main.js line 238): JavaScript `Array.prototype.sort` is stable, so
it is modelled by a stable sort by ascending start offset. -/
def sortByStart : List DetectedLink → List DetectedLink
  | [] => []
  | x :: xs => insertByStart x (sortByStart xs)

/-- `detectPotentialLinks(content)` (src/main.js lines 212-239). -/
def detectPotentialLinks (cache : List NoteEntry) (content : Str) (fuel : Nat) :
    Option ScanOutcome :=
  match detectPotentialLinksRaw cache content fuel with
  | none => none
  | some ScanOutcome.regexError => some ScanOutcome.regexError
  | some (ScanOutcome.ok links) => some (ScanOutcome.ok (sortByStart links))

/-- Search for the first occurrence of the frontmatter terminator
`---\n`, returning its offset (counting from `base`). -/
def findTerminator : Str → Nat → Option Nat
  | [], _ => none
  | c :: r, base =>
      if chStarts ['-', '-', '-', '\n'] (c :: r) then some base
      else findTerminator r (base + 1)

/-- `removeFrontmatter` (src/main.js lines 131-134):
`content.replace(/^---[\s\S]+?---\n/, '')` — anchored at offset 0, a
`---` opener, at least one character (matched lazily, so the earliest
terminator wins), then `---\n`; if the pattern matches, the matched
prefix is removed, otherwise the content is returned unchanged. -/
def removeFrontmatter (content : Str) : Str :=
  if chStarts ['-', '-', '-'] content then
    match findTerminator (content.drop 4) 4 with
    | some j => content.drop (j + 4)
    | none => content
  else content

/-- The scanning path of `runNoteLinker` (src/main.js lines 92-113):
strip the leading metadata block when `excludeFrontmatter` is set, then
detect potential links against the cache. -/
def runScan (settings : Settings) (cache : List NoteEntry) (content : Str) (fuel : Nat) :
    Option ScanOutcome :=
  let c := if settings.excludeFrontmatter then removeFrontmatter content else content
  detectPotentialLinks cache c fuel

/-- The replacement token computed for a selected link
(src/main.js lines 254-264): with wikilinks enabled and a case
difference under `respectCase`, an aliased reference; otherwise the
canonical bracketed reference. -/
def replacementFor (settings : Settings) (title originalText : Str) : Str :=
  if settings.enableWikiLinks then
    if originalText ≠ title ∧ settings.respectCase then
      ('[' :: '[' :: title) ++ ('|' :: originalText) ++ [']', ']']
    else ('[' :: '[' :: title) ++ [']', ']']
  else ('[' :: '[' :: title) ++ [']', ']']

/-- Modelled from the spec (§4.3 LinkRewriter, the three replacement
cases), for comparison with the source's `replacementFor`: if
`useBracketedLinkSyntax` is false the canonical bracketed reference; if
it is true, `matchedText` differs from `title` and `respectCaseOnReplace`
is set, an aliased reference; otherwise the canonical reference. -/
def replacementSpec (settings : Settings) (title matchedText : Str) : Str :=
  if settings.enableWikiLinks = false then ('[' :: '[' :: title) ++ [']', ']']
  else if matchedText ≠ title ∧ settings.respectCase then
    ('[' :: '[' :: title) ++ ('|' :: matchedText) ++ [']', ']']
  else ('[' :: '[' :: title) ++ [']', ']']

/-- `\w` of the replacement regex's `\b` anchors: ASCII letters, digits
and underscore. -/
def isWordChar (c : Char) : Bool := c.isAlpha || c.isDigit || c = '_'

/-- Word-ness of an optional character; out-of-bounds counts as non-word. -/
def isWordOpt : Option Char → Bool
  | none => false
  | some c => isWordChar c

/-- A `\b` word boundary between two adjacent (optional) characters. -/
def boundaryOk (a b : Option Char) : Bool := isWordOpt a != isWordOpt b

/-- One attempt of the replacement pattern `\b…\b` at the current
position: a leading word boundary (against the previous original
character), the literal pattern (case-insensitively), and a trailing
word boundary after the consumed span. -/
def replMatchHere (lits : Str) (prev : Option Char) (s : Str) : Bool :=
  boundaryOk prev s.head? && ciStarts lits s &&
    boundaryOk (if lits.isEmpty then prev else (s.take lits.length).getLast?)
      ((s.drop lits.length).head?)

/-- `content.replace(regex, replacement)` with the `g` flag: scan left to
right over the original text, substitute every non-overlapping match,
advance by one character after a zero-length match.  The fuel is spent
one unit per step and `s.length + 1` always suffices. -/
def replLoop (lits repl : Str) : Nat → Option Char → Str → Str
  | 0, _, s => s
  | fuel + 1, prev, s =>
      if replMatchHere lits prev s then
        if lits.isEmpty then
          match s with
          | [] => repl
          | c :: r => repl ++ (c :: replLoop lits repl fuel (some c) r)
        else
          repl ++ replLoop lits repl fuel ((s.take lits.length).getLast?) (s.drop lits.length)
      else
        match s with
        | [] => []
        | c :: r => c :: replLoop lits repl fuel (some c) r

/-- Global case-insensitive whole-word replacement, as performed by
`content.replace(new RegExp('\\b…\\b', 'gi'), replacement)`. -/
def replaceGlobal (lits repl s : Str) : Str :=
  replLoop lits repl (s.length + 1) none s

/-- Outcome of the rewrite: the substituted text, or a thrown
regex-syntax error from compiling a matched text. -/
inductive RewriteOutcome where
  | ok (text : Str)
  | regexError
  deriving DecidableEq

/-- `insertLinks` (src/main.js lines 247-273) on the content it read
from the vault: for each selected link, compute the replacement token
and globally substitute the whole-word occurrences of the original
matched text (line 267-268). -/
def insertLinks (settings : Settings) : Str → List DetectedLink → RewriteOutcome
  | content, [] => RewriteOutcome.ok content
  | content, link :: rest =>
      match compilePattern link.originalMatch with
      | none => RewriteOutcome.regexError
      | some lits =>
          insertLinks settings
            (replaceGlobal lits (replacementFor settings link.title link.originalMatch) content)
            rest

/-- The call path that reaches the rewriter: `runNoteLinker` scans some
text (possibly a selection, possibly frontmatter-stripped), the modal
passes the selected links to `insertLinks`, and `insertLinks` begins
with `await this.app.vault.read(activeFile)` (src/main.js line 248) —
the scanned text is not passed along; only the stored content is used. -/
def runInsertFlow (settings : Settings) (storedContent : Str) (_scannedText : Str)
    (links : List DetectedLink) : RewriteOutcome :=
  insertLinks settings storedContent links

/-- Does `file.path` start with one of the excluded folder paths? -/
def isExcludedPath (settings : Settings) (path : Str) : Bool :=
  settings.excludedFolders.any (fun folder => chStarts folder path)

/-- `updateCache` (src/main.js lines 41-62): when the cache is not up to
date, rebuild it from all loaded vault files, keeping non-excluded
markdown files, and mark it fresh. -/
def updateCache (settings : Settings) (vaultFiles : List VaultFile) (st : IndexState) :
    IndexState :=
  if st.cacheUpToDate then st
  else
    { noteTitlesCache := vaultFiles.filterMap (fun file =>
        if !isExcludedPath settings file.path && file.isTFile &&
            file.extension = "md".toList then
          some { title := file.basename, path := file.path }
        else none),
      cacheUpToDate := true }

/-- `onFileCreated` (src/main.js lines 65-73): append a cache entry for
a non-excluded markdown file and mark the cache stale. -/
def onFileCreated (settings : Settings) (file : VaultFile) (st : IndexState) : IndexState :=
  if file.extension = "md".toList then
    if !isExcludedPath settings file.path then
      { noteTitlesCache := st.noteTitlesCache ++ [{ title := file.basename, path := file.path }],
        cacheUpToDate := false }
    else st
  else st

/-- `onFileDeleted` (src/main.js lines 76-79): drop every cache entry
with the deleted file's path and mark the cache stale. -/
def onFileDeleted (file : VaultFile) (st : IndexState) : IndexState :=
  { noteTitlesCache := st.noteTitlesCache.filter (fun note => !(note.path = file.path)),
    cacheUpToDate := false }

/-! ## Facts about the match engine -/

/-- A successfully matching pattern never consumes more than the text. -/
theorem ciStarts_length : ∀ p s : Str, ciStarts p s = true → p.length ≤ s.length := by
  intro p
  induction p with
  | nil => intro s _; simp
  | cons a as ih =>
      intro s h
      cases s with
      | nil => simp [ciStarts] at h
      | cons b bs =>
          simp only [ciStarts, Bool.and_eq_true] at h
          simpa using ih bs h.2

/-- Components of a successful match attempt. -/
theorem attemptAt_eq_some {lits content : Str} {q L : Nat}
    (h : attemptAt lits content q = some L) :
    L = lits.length ∧ lookbehindOk content q = true ∧
      ciStarts lits (content.drop q) = true ∧
      lookaheadOk content (q + lits.length) = true := by
  unfold attemptAt at h
  split at h
  · next hc =>
      simp only [Option.some.injEq] at h
      simp only [Bool.and_eq_true] at hc
      exact ⟨h.symm, hc.1.1, hc.1.2, hc.2⟩
  · exact absurd h (by simp)

/-- The bump-along search returns a position in range where the pattern
matches. -/
theorem findFrom_eq_some {lits content : Str} :
    ∀ k p q, findFrom lits content k p = some q →
      p ≤ q ∧ q < p + k ∧ (attemptAt lits content q).isSome := by
  intro k
  induction k with
  | zero => intro p q h; simp [findFrom] at h
  | succ k ih =>
      intro p q h
      rw [findFrom] at h
      split at h
      · next hat =>
          simp only [Option.some.injEq] at h
          subst h
          exact ⟨Nat.le_refl _, by omega, hat⟩
      · obtain ⟨h1, h2, h3⟩ := ih (p + 1) q h
        exact ⟨by omega, by omega, h3⟩

/-- The bump-along search succeeds when some in-range position matches. -/
theorem findFrom_isSome {lits content : Str} :
    ∀ k p q, p ≤ q → q < p + k → (attemptAt lits content q).isSome →
      (findFrom lits content k p).isSome := by
  intro k
  induction k with
  | zero => intro p q h1 h2 _; omega
  | succ k ih =>
      intro p q h1 h2 hq
      rw [findFrom]
      split
      · simp
      · next hat =>
          have hne : p ≠ q := fun e => hat (e ▸ hq)
          exact ih (p + 1) q (by omega) (by omega) hq

/-- Truncating a list to the length of one of its own truncations gives
that truncation back. -/
theorem take_min_length (α : Type _) : ∀ (l : List α) (n : Nat), l.take (min n l.length) = l.take n := by
  intro l
  induction l with
  | nil => intro n; simp
  | cons a as ih =>
      intro n
      cases n with
      | zero => simp
      | succ n =>
          simp only [List.length_cons, Nat.succ_min_succ, List.take_succ_cons]
          rw [ih n]

/-- Taking a list's own truncation length reproduces the truncation. -/
theorem take_own_length (α : Type _) (l : List α) (n : Nat) :
    l.take ((l.take n).length) = l.take n := by
  rw [List.length_take]
  exact take_min_length α l n

/-- Every property of a link that the per-title loop guarantees on
emission: the boundary conditions held at its span boundaries (the
lookarounds sit at `match.index` and `match.index + match[0].length`),
and its matched text is the literal content at the start of its span —
the wrapping group's capture, a prefix of the full match. -/
def emittedOk (content : Str) (l : DetectedLink) : Prop :=
  lookbehindOk content l.matchIndex.1 = true ∧
  lookaheadOk content l.matchIndex.2 = true ∧
  l.originalMatch = (content.drop l.matchIndex.1).take l.originalMatch.length

/-- Every link produced by the per-title loop was in the accumulator or
was emitted from a successful match attempt. -/
theorem scanTitleLoop_mem {note : NoteEntry} {lits cap content : Str} :
    ∀ fuel p acc links, scanTitleLoop note lits cap content fuel p acc = some links →
      ∀ l ∈ links, l ∈ acc ∨ emittedOk content l := by
  intro fuel
  induction fuel with
  | zero => intro p acc links h; simp [scanTitleLoop] at h
  | succ fuel ih =>
      intro p acc links h l hl
      rw [scanTitleLoop] at h
      cases hf : findMatch lits content p with
      | none =>
          simp only [hf, Option.some.injEq] at h
          subst h
          exact Or.inl hl
      | some q =>
          simp only [hf] at h
          rcases ih _ _ _ h l hl with hacc | hok
          · rcases List.mem_append.mp hacc with h1 | h2
            · exact Or.inl h1
            · right
              have hl' := List.mem_singleton.mp h2
              subst hl'
              unfold findMatch at hf
              have hat := (findFrom_eq_some _ _ _ hf).2.2
              obtain ⟨L, hL⟩ := Option.isSome_iff_exists.mp hat
              obtain ⟨_, hlb, hci, hla⟩ := attemptAt_eq_some hL
              exact ⟨hlb, hla, (take_own_length Char (content.drop q) cap.length).symm⟩
          · exact Or.inr hok

/-- Every link produced by the title traversal was in the accumulator or
was emitted from a successful match attempt. -/
theorem scanAllTitles_mem {content : Str} {fuel : Nat} :
    ∀ cache acc links, scanAllTitles cache content fuel acc = some (ScanOutcome.ok links) →
      ∀ l ∈ links, l ∈ acc ∨ emittedOk content l := by
  intro cache
  induction cache with
  | nil =>
      intro acc links h l hl
      simp only [scanAllTitles, Option.some.injEq, ScanOutcome.ok.injEq] at h
      subst h
      exact Or.inl hl
  | cons note rest ih =>
      intro acc links h l hl
      rw [scanAllTitles] at h
      cases hc : compileScanPattern note.title with
      | none => simp only [hc] at h; simp at h
      | some pr =>
          obtain ⟨lits, cap⟩ := pr
          simp only [hc] at h
          cases hs : scanTitleLoop note lits cap content fuel 0 [] with
          | none => simp only [hs] at h; simp at h
          | some tl =>
              simp only [hs] at h
              rcases ih _ _ h l hl with hacc | hok
              · rcases List.mem_append.mp hacc with h1 | h2
                · exact Or.inl h1
                · rcases scanTitleLoop_mem _ _ _ _ hs l h2 with h3 | h4
                  · simp at h3
                  · exact Or.inr h4
              · exact Or.inr hok

/-! ## Facts about the final sort -/

/-- Membership is preserved by stable insertion. -/
theorem mem_insertByStart {x l : DetectedLink} :
    ∀ m, l ∈ insertByStart x m ↔ l = x ∨ l ∈ m := by
  intro m
  induction m with
  | nil => simp [insertByStart]
  | cons y ys ih =>
      rw [insertByStart]
      split
      · simp only [List.mem_cons, ih]
        tauto
      · simp [List.mem_cons]

/-- Membership is preserved by the final sort. -/
theorem mem_sortByStart {l : DetectedLink} :
    ∀ m, l ∈ sortByStart m ↔ l ∈ m := by
  intro m
  induction m with
  | nil => simp [sortByStart]
  | cons y ys ih => simp [sortByStart, mem_insertByStart, ih]

/-- Stable insertion into a start-sorted list stays start-sorted. -/
theorem pairwise_insertByStart (x : DetectedLink) :
    ∀ m, m.Pairwise (fun a b => a.matchIndex.1 ≤ b.matchIndex.1) →
      (insertByStart x m).Pairwise (fun a b => a.matchIndex.1 ≤ b.matchIndex.1) := by
  intro m
  induction m with
  | nil => intro _; simp [insertByStart]
  | cons y ys ih =>
      intro h
      rw [List.pairwise_cons] at h
      rw [insertByStart]
      split
      · next hlt =>
          rw [List.pairwise_cons]
          refine ⟨?_, ih h.2⟩
          intro z hz
          rcases (mem_insertByStart _).mp hz with h1 | h2
          · subst h1; exact Nat.le_of_lt hlt
          · exact h.1 z h2
      · next hge =>
          rw [List.pairwise_cons]
          refine ⟨?_, List.pairwise_cons.mpr h⟩
          intro z hz
          rcases List.mem_cons.mp hz with h1 | h2
          · subst h1; exact Nat.le_of_not_lt hge
          · exact Nat.le_trans (Nat.le_of_not_lt hge) (h.1 z h2)

/-- The final sort produces a list sorted by ascending span start. -/
theorem pairwise_sortByStart :
    ∀ m : List DetectedLink,
      (sortByStart m).Pairwise (fun a b => a.matchIndex.1 ≤ b.matchIndex.1) := by
  intro m
  induction m with
  | nil => simp [sortByStart]
  | cons y ys ih => exact pairwise_insertByStart y _ ih

/-- Stable insertion keeps the relative order of links with any given
start offset: the inserted link passes only strictly smaller starts. -/
theorem filter_insertByStart (v : Nat) (x : DetectedLink) :
    ∀ m, (insertByStart x m).filter (fun l => l.matchIndex.1 == v) =
      (x :: m).filter (fun l => l.matchIndex.1 == v) := by
  intro m
  induction m with
  | nil => simp [insertByStart]
  | cons y ys ih =>
      rw [insertByStart]
      split
      · next hlt =>
          by_cases hx : x.matchIndex.1 = v
          · have hy : ¬ (y.matchIndex.1 = v) := by omega
            simp [List.filter_cons, hx, hy, ih]
          · simp [List.filter_cons, hx, ih]
      · rfl

/-- The final sort keeps links with equal span start in their original
discovery order. -/
theorem filter_sortByStart (v : Nat) :
    ∀ m : List DetectedLink,
      (sortByStart m).filter (fun l => l.matchIndex.1 == v) =
        m.filter (fun l => l.matchIndex.1 == v) := by
  intro m
  induction m with
  | nil => simp [sortByStart]
  | cons y ys ih =>
      rw [sortByStart, filter_insertByStart]
      simp [List.filter_cons, ih]

/-- Every link in a successful scan result satisfies the emission
conditions. -/
theorem detect_mem {cache : List NoteEntry} {content : Str} {fuel : Nat}
    {links : List DetectedLink}
    (h : detectPotentialLinks cache content fuel = some (ScanOutcome.ok links)) :
    ∀ l ∈ links, emittedOk content l := by
  intro l hl
  unfold detectPotentialLinks at h
  cases hr : detectPotentialLinksRaw cache content fuel with
  | none => simp only [hr] at h; simp at h
  | some oc =>
      simp only [hr] at h
      cases oc with
      | regexError => simp at h
      | ok raw =>
          simp only [Option.some.injEq, ScanOutcome.ok.injEq] at h
          subst h
          have hmem := (mem_sortByStart raw).mp hl
          unfold detectPotentialLinksRaw at hr
          rcases scanAllTitles_mem cache [] raw hr l hmem with h1 | h2
          · simp at h1
          · exact h2

/-! ## Characterization of the constructed patterns -/

/-- The token sequence of the pattern constructed for a title, unit by
unit: a parenthesis becomes two literals (backslash and question mark)
and a group delimiter; every other character becomes one literal. -/
def flexToks : Str → List Tok
  | [] => []
  | c :: r =>
      (if c = '(' then [Tok.lit '\\', Tok.lit '?', Tok.openG]
       else if c = ')' then [Tok.lit '\\', Tok.lit '?', Tok.closeG]
       else [Tok.lit c]) ++ flexToks r

/-- The literal characters the constructed pattern for a title actually
matches: each parenthesis contributes the two characters backslash and
question mark; every other character contributes itself. -/
def flexLits : Str → Str
  | [] => []
  | c :: r => (if c = '(' || c = ')' then ['\\', '?'] else [c]) ++ flexLits r

theorem escapeRegExp_cons_special {c : Char} (s : Str) (h : isSpecialChar c = true) :
    escapeRegExp (c :: s) = '\\' :: c :: escapeRegExp s := by
  simp [escapeRegExp, h]

theorem escapeRegExp_cons_other {c : Char} (s : Str) (h : isSpecialChar c = false) :
    escapeRegExp (c :: s) = c :: escapeRegExp s := by
  simp [escapeRegExp, h]

theorem parenFlex_cons_paren {c : Char} (s : Str) (h : (c = '(' || c = ')') = true) :
    parenFlexReplace (c :: s) = '\\' :: '\\' :: '?' :: c :: parenFlexReplace s := by
  simp [parenFlexReplace, h]

theorem parenFlex_cons_other {c : Char} (s : Str) (h : (c = '(' || c = ')') = false) :
    parenFlexReplace (c :: s) = c :: parenFlexReplace s := by
  simp [parenFlexReplace, h]

theorem tokenizePattern_escape (c : Char) (s : Str) :
    tokenizePattern ('\\' :: c :: s) = (tokenizePattern s).map (Tok.lit c :: ·) := by
  rw [tokenizePattern.eq_def]
  dsimp only
  rw [if_pos rfl]

theorem tokenizePattern_open (s : Str) :
    tokenizePattern ('(' :: s) = (tokenizePattern s).map (Tok.openG :: ·) := by
  rw [tokenizePattern.eq_def]
  dsimp only
  rw [if_neg (by decide), if_pos rfl]

theorem tokenizePattern_close (s : Str) :
    tokenizePattern (')' :: s) = (tokenizePattern s).map (Tok.closeG :: ·) := by
  rw [tokenizePattern.eq_def]
  dsimp only
  rw [if_neg (by decide), if_neg (by decide), if_pos rfl]

theorem tokenizePattern_other {c : Char} (s : Str) (hb : ¬ c = '\\') (ho : ¬ c = '(')
    (hc : ¬ c = ')') (hs : isSpecialChar c = false) :
    tokenizePattern (c :: s) = (tokenizePattern s).map (Tok.lit c :: ·) := by
  rw [tokenizePattern.eq_def]
  dsimp only
  rw [if_neg hb, if_neg ho, if_neg hc, if_neg (by simp [hs])]

/-- A parenthesis character is syntactically significant. -/
theorem paren_isSpecial {c : Char} (h : (c = '(' || c = ')') = true) :
    isSpecialChar c = true := by
  rcases Bool.or_eq_true .. |>.mp h with h1 | h1 <;>
    simp only [decide_eq_true_eq] at h1 <;> subst h1 <;> decide

/-- Tokenizing the constructed pattern of any title always succeeds and
yields the unit-by-unit token sequence: the three backslashes inserted
in front of each parenthesis re-parse as an escaped backslash and an
escaped question mark, leaving the parenthesis itself bare. -/
theorem tokenize_constructed :
    ∀ t : Str, tokenizePattern (parenFlexReplace (escapeRegExp t)) = some (flexToks t) := by
  intro t
  induction t with
  | nil => rfl
  | cons c r ih =>
      by_cases hp : (c = '(' || c = ')') = true
      · rw [escapeRegExp_cons_special _ (paren_isSpecial hp)]
        rw [parenFlex_cons_other _ (by decide), parenFlex_cons_paren _ hp]
        rw [tokenizePattern_escape, tokenizePattern_escape]
        rcases Bool.or_eq_true .. |>.mp hp with h1 | h1 <;>
          simp only [decide_eq_true_eq] at h1 <;> subst h1
        · rw [tokenizePattern_open, ih]
          simp [flexToks]
        · rw [tokenizePattern_close, ih]
          simp [flexToks]
      · have hp' : (c = '(' || c = ')') = false := by
          cases h : (c = '(' || c = ')')
          · rfl
          · exact absurd h hp
        have hnp1 : ¬ c = '(' := by
          intro e; subst e; simp at hp'
        have hnp2 : ¬ c = ')' := by
          intro e; subst e; simp at hp'
        by_cases hs : isSpecialChar c = true
        · rw [escapeRegExp_cons_special _ hs]
          rw [parenFlex_cons_other _ (by decide), parenFlex_cons_other _ hp']
          rw [tokenizePattern_escape, ih]
          simp [flexToks, hnp1, hnp2]
        · have hs' : isSpecialChar c = false := by
            cases h : isSpecialChar c
            · rfl
            · exact absurd h hs
          have hnb : ¬ c = '\\' := by
            intro e; subst e; simp [isSpecialChar] at hs'
          rw [escapeRegExp_cons_other _ hs']
          rw [parenFlex_cons_other _ hp']
          rw [tokenizePattern_other _ hnb hnp1 hnp2 hs', ih]
          simp [flexToks, hnp1, hnp2]

/-- The literal characters of the constructed token sequence. -/
theorem litsOf_flexToks : ∀ t : Str, litsOf (flexToks t) = flexLits t := by
  intro t
  induction t with
  | nil => rfl
  | cons c r ih =>
      by_cases h1 : c = '('
      · subst h1; simp [flexToks, flexLits, litsOf, ih]
      · by_cases h2 : c = ')'
        · subst h2; simp [flexToks, flexLits, litsOf, ih]
        · simp [flexToks, flexLits, litsOf, ih, h1, h2]

/-- A successful pattern compilation yields exactly the flexible literal
sequence of the title. -/
theorem compilePattern_eq_some {t lits : Str} (h : compilePattern t = some lits) :
    lits = flexLits t := by
  unfold compilePattern at h
  simp only [tokenize_constructed] at h
  split at h
  · simp only [Option.some.injEq] at h
    rw [← h, litsOf_flexToks]
  · simp at h

/-- A successful scan-pattern compilation yields, as the full match's
literal sequence, exactly the flexible literal sequence of the title. -/
theorem compileScanPattern_eq_some {t : Str} {pr : Str × Str}
    (h : compileScanPattern t = some pr) : pr.1 = flexLits t := by
  unfold compileScanPattern at h
  simp only [tokenize_constructed] at h
  split at h
  · simp only [Option.some.injEq] at h
    rw [← h]
    exact litsOf_flexToks t
  · simp at h

/-- The constructed pattern of a non-empty title matches at least one
character. -/
theorem flexLits_ne_nil {t : Str} (h : t ≠ []) : flexLits t ≠ [] := by
  cases t with
  | nil => exact absurd rfl h
  | cons c r =>
      rw [flexLits]
      split <;> simp

/-! ## Termination and divergence of the scan loop -/

/-- With a non-empty pattern, every match advances the position, so
`content.length + 2` units of fuel always complete the per-title loop. -/
theorem scanTitleLoop_isSome {note : NoteEntry} {lits cap content : Str} (hne : lits ≠ []) :
    ∀ fuel p acc, p ≤ content.length → content.length + 2 ≤ fuel + p →
      (scanTitleLoop note lits cap content fuel p acc).isSome := by
  intro fuel
  induction fuel with
  | zero => intro p acc h1 h2; omega
  | succ fuel ih =>
      intro p acc h1 h2
      rw [scanTitleLoop]
      cases hf : findMatch lits content p with
      | none => simp
      | some q =>
          simp only []
          unfold findMatch at hf
          obtain ⟨hpq, hqk, hat⟩ := findFrom_eq_some _ _ _ hf
          obtain ⟨L, hL⟩ := Option.isSome_iff_exists.mp hat
          obtain ⟨_, _, hci, _⟩ := attemptAt_eq_some hL
          have hlen := ciStarts_length _ _ hci
          rw [List.length_drop] at hlen
          have hpos : 1 ≤ lits.length := by
            cases hl : lits with
            | nil => exact absurd hl hne
            | cons a as => simp [hl]
          exact ih (q + lits.length) _ (by omega) (by omega)

/-- With every cached title non-empty, the whole scan completes with
fuel `content.length + 2`. -/
theorem scanAllTitles_isSome {content : Str} :
    ∀ cache acc, (∀ n ∈ cache, n.title ≠ []) →
      (scanAllTitles cache content (content.length + 2) acc).isSome := by
  intro cache
  induction cache with
  | nil => intro acc _; simp [scanAllTitles]
  | cons note rest ih =>
      intro acc hne
      rw [scanAllTitles]
      cases hc : compileScanPattern note.title with
      | none => simp
      | some pr =>
          obtain ⟨lits, cap⟩ := pr
          have h1 : lits = flexLits note.title := compileScanPattern_eq_some hc
          have hl : lits ≠ [] := by
            rw [h1]
            exact flexLits_ne_nil (hne note (by simp))
          have hs := @scanTitleLoop_isSome note lits cap content hl (content.length + 2) 0 []
            (Nat.zero_le _) (by omega)
          obtain ⟨tl, htl⟩ := Option.isSome_iff_exists.mp hs
          simp only [htl]
          exact ih _ (fun n hn => hne n (by simp [hn]))

/-- Positions strictly before offset 2 always pass the lookbehind. -/
theorem lookbehindOk_lt_two {s : Str} {q : Nat} (h : q < 2) : lookbehindOk s q = true := by
  unfold lookbehindOk
  rw [decide_eq_false (by omega : ¬ (2 ≤ q))]
  simp

/-- Shifting the lookahead over a prepended character. -/
theorem lookaheadOk_shift (c : Char) (r : Str) (q : Nat) :
    lookaheadOk (c :: r) (q + 1) = lookaheadOk r q := by
  simp [lookaheadOk, List.drop_succ_cons]

/-- Shifting the lookbehind over a prepended character (away from the
text start). -/
theorem lookbehindOk_shift (c : Char) (r : Str) {q : Nat} (h : 2 ≤ q) :
    lookbehindOk (c :: r) (q + 1) = lookbehindOk r q := by
  unfold lookbehindOk
  have he : q + 1 - 2 = (q - 2) + 1 := by omega
  rw [he, List.drop_succ_cons]
  rw [decide_eq_true (by omega : 2 ≤ q + 1), decide_eq_true h]

/-- A literal prefix test fails when the heads differ. -/
theorem chStarts_cons_ne {a b : Char} (as bs : Str) (h : ¬ a = b) :
    chStarts (a :: as) (b :: bs) = false := by
  simp [chStarts, h]

/-- In any text there is a position at which the empty pattern, with
both boundary conditions, matches: walking back from the end of the
text, the first position not preceded by two opening brackets works,
and if the whole text is opening brackets, position 0 works. -/
theorem emptyMatch_exists :
    ∀ s : Str, ∃ q, q ≤ s.length ∧ lookbehindOk s q = true ∧ lookaheadOk s q = true := by
  intro s
  induction s with
  | nil => exact ⟨0, Nat.le_refl _, by decide, by decide⟩
  | cons c r ih =>
      obtain ⟨q, hq, hlb, hla⟩ := ih
      by_cases h0 : q = 0
      · subst h0
        refine ⟨1, by simp, lookbehindOk_lt_two (by omega), ?_⟩
        rw [show (1 : Nat) = 0 + 1 from rfl, lookaheadOk_shift]
        exact hla
      · by_cases h1 : q = 1
        · subst h1
          cases hbr : chStarts ['[', '['] (c :: r) with
          | true =>
              have hc : c = '[' := by
                simp only [chStarts, Bool.and_eq_true] at hbr
                simp only [decide_eq_true_eq] at hbr
                exact hbr.1.symm
              subst hc
              refine ⟨0, Nat.zero_le _, lookbehindOk_lt_two (by omega), ?_⟩
              unfold lookaheadOk
              rw [List.drop]
              rw [chStarts_cons_ne _ _ (by decide), chStarts_cons_ne _ _ (by decide)]
              rfl
          | false =>
              refine ⟨2, by simpa using hq, ?_, ?_⟩
              · unfold lookbehindOk
                have : (2 : Nat) - 2 = 0 := rfl
                rw [this, List.drop, hbr]
                rfl
              · rw [show (2 : Nat) = 1 + 1 from rfl, lookaheadOk_shift]
                exact hla
        · have h2 : 2 ≤ q := by omega
          refine ⟨q + 1, by simpa using hq, ?_, ?_⟩
          · rw [lookbehindOk_shift c r h2]; exact hlb
          · rw [lookaheadOk_shift]; exact hla

/-- Once the empty pattern matches at the current position, the loop
can never advance: each `exec` returns the same zero-length match. -/
theorem scanTitleLoop_empty_none {note : NoteEntry} {cap content : Str} :
    ∀ fuel p acc, p ≤ content.length → (attemptAt [] content p).isSome →
      scanTitleLoop note [] cap content fuel p acc = none := by
  intro fuel
  induction fuel with
  | zero => intro p acc _ _; rfl
  | succ fuel ih =>
      intro p acc hp hat
      rw [scanTitleLoop]
      have hfm : findMatch [] content p = some p := by
        unfold findMatch
        cases hk : content.length + 1 - p with
        | zero => omega
        | succ k => rw [findFrom]; simp [hat]
      simp only [hfm]
      simpa using ih p _ hp hat

/-- Scanning for an empty title never terminates, whatever the fuel. -/
theorem scanTitleLoop_empty_diverges {note : NoteEntry} {cap content : Str} :
    ∀ fuel acc, scanTitleLoop note [] cap content fuel 0 acc = none := by
  intro fuel acc
  cases fuel with
  | zero => rfl
  | succ fuel =>
      obtain ⟨q, hq, hlb, hla⟩ := emptyMatch_exists content
      have hat : (attemptAt [] content q).isSome := by
        unfold attemptAt
        simp [hlb, hla, ciStarts]
      have hfm : (findMatch [] content 0).isSome := by
        unfold findMatch
        exact findFrom_isSome _ 0 q (Nat.zero_le _) (by omega) hat
      obtain ⟨q0, hq0⟩ := Option.isSome_iff_exists.mp hfm
      have hq0' := findFrom_eq_some _ _ _ (show findFrom [] content (content.length + 1 - 0) 0
        = some q0 from hq0)
      rw [scanTitleLoop]
      simp only [hq0]
      simpa using scanTitleLoop_empty_none fuel q0 _ (by omega) hq0'.2.2

/-- If every cached pattern compiles but some cached title is empty, the
scan diverges for every amount of fuel. -/
theorem scanAllTitles_empty_none {content : Str} :
    ∀ cache acc fuel, (∀ n ∈ cache, (compileScanPattern n.title).isSome) →
      (∃ n ∈ cache, n.title = []) →
      scanAllTitles cache content fuel acc = none := by
  intro cache
  induction cache with
  | nil => intro acc fuel _ h; simp at h
  | cons note rest ih =>
      intro acc fuel hcomp h
      rw [scanAllTitles]
      by_cases hn : note.title = []
      · rw [hn]
        simp only [show compileScanPattern ([] : Str) = some ([], []) from rfl]
        rw [scanTitleLoop_empty_diverges fuel []]
      · obtain ⟨pr, hc⟩ := Option.isSome_iff_exists.mp (hcomp note (by simp))
        obtain ⟨lits, cap⟩ := pr
        simp only [hc]
        cases hs : scanTitleLoop note lits cap content fuel 0 [] with
        | none => rfl
        | some tl =>
            apply ih
            · exact fun n hm => hcomp n (by simp [hm])
            · obtain ⟨m, hm, hme⟩ := h
              rcases List.mem_cons.mp hm with h1 | h2
              · subst h1; exact absurd hme hn
              · exact ⟨m, h2, hme⟩

/-! ## Index uniqueness lemmas -/

/-- Every path in the rebuilt cache comes from a vault file. -/
theorem path_mem_filterMap (f : VaultFile → Option NoteEntry)
    (hf : ∀ v e, f v = some e → e.path = v.path) :
    ∀ (v : List VaultFile) (x : Str), x ∈ (v.filterMap f).map (fun n => n.path) →
      x ∈ v.map (fun file => file.path) := by
  intro v
  induction v with
  | nil => intro x h; simp at h
  | cons c r ih =>
      intro x h
      rw [List.filterMap_cons] at h
      cases hc : f c with
      | none =>
          rw [hc] at h
          exact List.mem_cons.mpr (Or.inr (ih x h))
      | some e =>
          rw [hc] at h
          rcases List.mem_cons.mp h with h1 | h2
          · exact List.mem_cons.mpr (Or.inl (h1.trans (hf c e hc)))
          · exact List.mem_cons.mpr (Or.inr (ih x h2))

/-- The rebuilt cache has pairwise distinct paths whenever the vault
paths are pairwise distinct. -/
theorem nodup_filterMap_path (f : VaultFile → Option NoteEntry)
    (hf : ∀ v e, f v = some e → e.path = v.path) :
    ∀ v : List VaultFile, (v.map (fun file => file.path)).Nodup →
      ((v.filterMap f).map (fun n => n.path)).Nodup := by
  intro v
  induction v with
  | nil => intro _; simp
  | cons c r ih =>
      intro h
      rw [List.map_cons, List.nodup_cons] at h
      rw [List.filterMap_cons]
      cases hc : f c with
      | none => exact ih h.2
      | some e =>
          rw [List.map_cons, List.nodup_cons]
          refine ⟨?_, ih h.2⟩
          intro hmem
          rw [hf c e hc] at hmem
          exact h.1 (path_mem_filterMap f hf r c.path hmem)

/-! ## Wrappers used by the claim theorems -/

/-- With every cached title non-empty, the scan terminates: fuel
`content.length + 2` already yields a result (links or a thrown regex
error — never the divergence marker). -/
theorem detect_isSome {cache : List NoteEntry} {content : Str}
    (h : ∀ n ∈ cache, n.title ≠ []) :
    (detectPotentialLinks cache content (content.length + 2)).isSome := by
  unfold detectPotentialLinks detectPotentialLinksRaw
  obtain ⟨oc, hoc⟩ := Option.isSome_iff_exists.mp (scanAllTitles_isSome cache [] h)
  rw [hoc]
  cases oc <;> simp

/-- With every cached pattern compiling and some cached title empty, the
scan never yields a result, whatever the fuel. -/
theorem detect_empty_none {cache : List NoteEntry} {content : Str} {fuel : Nat}
    (hcomp : ∀ n ∈ cache, (compileScanPattern n.title).isSome)
    (hempty : ∃ n ∈ cache, n.title = []) :
    detectPotentialLinks cache content fuel = none := by
  unfold detectPotentialLinks detectPotentialLinksRaw
  simp only [scanAllTitles_empty_none cache [] fuel hcomp hempty]

/-! ## Claim theorems -/

/-- C1: contrary to the claim, a title containing parentheses matches
neither its unescaped nor its backslash-escaped form: the pattern built
for "Budget (2024)" compiles to the literal text "Budget \?2024\?" (the
inserted backslashes re-parse as an escaped backslash and an escaped
question mark, and the parentheses become bare group delimiters), so
both source-text variants of the claim yield zero occurrences, while the
unintended literal text yields one. -/
theorem c1_paren_bug :
    detectPotentialLinks [⟨"Budget (2024)".toList, "b.md".toList⟩]
        "Budget (2024)".toList 20 = some (ScanOutcome.ok []) ∧
    detectPotentialLinks [⟨"Budget (2024)".toList, "b.md".toList⟩]
        "Budget \\(2024\\)".toList 20 = some (ScanOutcome.ok []) ∧
    compilePattern "Budget (2024)".toList = some "Budget \\?2024\\?".toList ∧
    detectPotentialLinks [⟨"Budget (2024)".toList, "b.md".toList⟩]
        "Budget \\?2024\\?".toList 20 = some (ScanOutcome.ok
          [⟨"Budget (2024)".toList, "Budget \\?2024\\?".toList, "Budget \\?2024\\?".toList,
            "b.md".toList, (0, 15)⟩]) :=
  ⟨by decide, by decide, by decide, by decide⟩

/-- C2: every emitted occurrence passes both zero-width boundary
conditions — it is not immediately preceded by an opening double-bracket
token and not immediately followed by an optional alias separator and a
closing double-bracket token — and scanning "[[Existing Title]]" with
the title "Existing Title" yields zero occurrences. -/
theorem c2_bracket_exclusion (cache : List NoteEntry) (content : Str) (fuel : Nat)
    (links : List DetectedLink) (l : DetectedLink)
    (h1 : detectPotentialLinks cache content fuel = some (ScanOutcome.ok links))
    (h2 : l ∈ links) :
    (lookbehindOk content l.matchIndex.1 = true ∧
      lookaheadOk content l.matchIndex.2 = true) ∧
    detectPotentialLinks [⟨"Existing Title".toList, "e.md".toList⟩]
        "[[Existing Title]]".toList 25 = some (ScanOutcome.ok []) := by
  have h := detect_mem h1 l h2
  exact ⟨⟨h.1, h.2.1⟩, by decide⟩

/-- Witness for C2 at a concrete successful scan. -/
theorem c2_witness :
    (lookbehindOk "x Alpha y".toList 2 = true ∧ lookaheadOk "x Alpha y".toList 7 = true) ∧
    detectPotentialLinks [⟨"Existing Title".toList, "e.md".toList⟩]
        "[[Existing Title]]".toList 25 = some (ScanOutcome.ok []) :=
  c2_bracket_exclusion [⟨"Alpha".toList, "a.md".toList⟩] "x Alpha y".toList 11
    [⟨"Alpha".toList, "x Alpha y".toList, "Alpha".toList, "a.md".toList, (2, 7)⟩]
    ⟨"Alpha".toList, "x Alpha y".toList, "Alpha".toList, "a.md".toList, (2, 7)⟩
    (by decide) (by decide)

/-- C3: counterexample to configurable case sensitivity — with every
boolean setting enabled (the closest state to "caseSensitive true") the
scan still matches "project alpha" against the title "Project Alpha",
exactly as it does with every setting disabled: no configuration makes
matching case-sensitive, because the flags of the constructed regex are
hard-coded to gi. -/
theorem c3_counterexample :
    runScan ⟨[], 10, true, true, true⟩ [⟨"Project Alpha".toList, "p.md".toList⟩]
        "See project alpha notes".toList 30 =
      some (ScanOutcome.ok [⟨"Project Alpha".toList, "See project alpha notes".toList,
        "project alpha".toList, "p.md".toList, (4, 17)⟩]) ∧
    runScan ⟨[], 10, false, false, false⟩ [⟨"Project Alpha".toList, "p.md".toList⟩]
        "See project alpha notes".toList 30 =
      some (ScanOutcome.ok [⟨"Project Alpha".toList, "See project alpha notes".toList,
        "project alpha".toList, "p.md".toList, (4, 17)⟩]) :=
  ⟨by decide, by decide⟩

/-- C3 (amended): matching is always case-insensitive — under every
configuration the example scan emits the lower-case occurrence with the
original title — and the emitted matched text always preserves the
literal casing found in the source: it is the exact substring of the
scanned content, of its own length, at the occurrence's span start (for
ordinary titles that is the whole span; for degenerate titles whose
close paren precedes an open paren, the wrapping capture group closes
early, and match[1] — the emitted text — is a prefix of the span). -/
theorem c3_amended (settings : Settings) (cache : List NoteEntry) (content : Str)
    (fuel : Nat) (links : List DetectedLink) (l : DetectedLink)
    (h1 : detectPotentialLinks cache content fuel = some (ScanOutcome.ok links))
    (h2 : l ∈ links) :
    runScan settings [⟨"Project Alpha".toList, "p.md".toList⟩]
        "See project alpha notes".toList 30 =
      some (ScanOutcome.ok [⟨"Project Alpha".toList, "See project alpha notes".toList,
        "project alpha".toList, "p.md".toList, (4, 17)⟩]) ∧
    l.originalMatch = (content.drop l.matchIndex.1).take l.originalMatch.length := by
  constructor
  · obtain ⟨ef, ps, ew, rc, xf⟩ := settings
    cases xf
    · show detectPotentialLinks [⟨"Project Alpha".toList, "p.md".toList⟩]
          "See project alpha notes".toList 30 =
        some (ScanOutcome.ok [⟨"Project Alpha".toList, "See project alpha notes".toList,
          "project alpha".toList, "p.md".toList, (4, 17)⟩])
      decide
    · show detectPotentialLinks [⟨"Project Alpha".toList, "p.md".toList⟩]
          (removeFrontmatter "See project alpha notes".toList) 30 =
        some (ScanOutcome.ok [⟨"Project Alpha".toList, "See project alpha notes".toList,
          "project alpha".toList, "p.md".toList, (4, 17)⟩])
      decide
  · exact (detect_mem h1 l h2).2.2

/-- Witness for C3 at a concrete successful scan. -/
theorem c3_witness :
    runScan ⟨[], 10, true, true, true⟩ [⟨"Project Alpha".toList, "p.md".toList⟩]
        "See project alpha notes".toList 30 =
      some (ScanOutcome.ok [⟨"Project Alpha".toList, "See project alpha notes".toList,
        "project alpha".toList, "p.md".toList, (4, 17)⟩]) ∧
    (⟨"Project Alpha".toList, "See project alpha notes".toList, "project alpha".toList,
        "p.md".toList, (4, 17)⟩ : DetectedLink).originalMatch =
      (("See project alpha notes".toList).drop 4).take 13 :=
  c3_amended ⟨[], 10, true, true, true⟩ [⟨"Project Alpha".toList, "p.md".toList⟩]
    "See project alpha notes".toList 30
    [⟨"Project Alpha".toList, "See project alpha notes".toList, "project alpha".toList,
      "p.md".toList, (4, 17)⟩]
    ⟨"Project Alpha".toList, "See project alpha notes".toList, "project alpha".toList,
      "p.md".toList, (4, 17)⟩
    (by decide) (by decide)

/-- C4: counterexample — two runs with the same scanned text, the same
selected occurrences and the same configuration but different stored
document contents produce different outputs, because the rewriter begins
by rereading the stored content. -/
theorem c4_counterexample :
    runInsertFlow defaultSettings "Alpha".toList "Alpha".toList
        [⟨"Alpha".toList, "Alpha".toList, "Alpha".toList, "a.md".toList, (0, 5)⟩] ≠
      runInsertFlow defaultSettings "x".toList "Alpha".toList
        [⟨"Alpha".toList, "Alpha".toList, "Alpha".toList, "a.md".toList, (0, 5)⟩] := by
  decide

/-- C4 (amended): the rewriter rereads the stored document and ignores
the scanned text — its output is a function of the stored content, the
selected occurrences and the configuration only — and with no selected
occurrences it returns the stored content unchanged. -/
theorem c4_amended (settings : Settings) (storedContent scannedA scannedB : Str)
    (links : List DetectedLink) :
    runInsertFlow settings storedContent scannedA links =
      runInsertFlow settings storedContent scannedB links ∧
    insertLinks settings storedContent [] = RewriteOutcome.ok storedContent :=
  ⟨rfl, rfl⟩

/-- C5: counterexample — two identical add events for the same path,
starting from a freshly rebuilt empty index, leave two entries with that
path: onFileCreated appends without any per-path duplicate check. -/
theorem c5_counterexample :
    ¬ (((onFileCreated defaultSettings ⟨"A".toList, "A.md".toList, "md".toList, true⟩
        (onFileCreated defaultSettings ⟨"A".toList, "A.md".toList, "md".toList, true⟩
          ⟨[], true⟩)).noteTitlesCache.map (fun n => n.path)).Nodup) := by
  decide

/-- C5 (amended): a rebuild from vault files with pairwise-distinct
paths produces an index whose entries have pairwise-distinct paths, and
removal preserves per-path uniqueness; (the add event, by contrast,
appends unconditionally, as the counterexample shows). -/
theorem c5_amended (settings : Settings) (vaultFiles : List VaultFile)
    (cache : List NoteEntry) (file : VaultFile) (st : IndexState)
    (h1 : (vaultFiles.map (fun f => f.path)).Nodup)
    (h2 : (st.noteTitlesCache.map (fun n => n.path)).Nodup) :
    ((updateCache settings vaultFiles ⟨cache, false⟩).noteTitlesCache.map
      (fun n => n.path)).Nodup ∧
    ((onFileDeleted file st).noteTitlesCache.map (fun n => n.path)).Nodup := by
  constructor
  · have hf : ∀ (v : VaultFile) (e : NoteEntry),
        (if !isExcludedPath settings v.path && v.isTFile && v.extension = "md".toList then
          some { title := v.basename, path := v.path } else none) = some e →
          e.path = v.path := by
      intro v e he
      split at he
      · injection he with he
        subst he
        rfl
      · exact Option.noConfusion he
    exact nodup_filterMap_path _ hf vaultFiles h1
  · exact List.Nodup.sublist (List.Sublist.map _ (List.filter_sublist _)) h2

/-- Witness for C5 at concrete vault contents. -/
theorem c5_witness :
    ((updateCache defaultSettings
        [⟨"A".toList, "A.md".toList, "md".toList, true⟩,
         ⟨"B".toList, "B.md".toList, "md".toList, true⟩]
        ⟨[], false⟩).noteTitlesCache.map (fun n => n.path)).Nodup ∧
    ((onFileDeleted ⟨"A".toList, "A.md".toList, "md".toList, true⟩
        ⟨[⟨"A".toList, "A.md".toList⟩], true⟩).noteTitlesCache.map
      (fun n => n.path)).Nodup :=
  c5_amended defaultSettings
    [⟨"A".toList, "A.md".toList, "md".toList, true⟩,
     ⟨"B".toList, "B.md".toList, "md".toList, true⟩]
    [] ⟨"A".toList, "A.md".toList, "md".toList, true⟩
    ⟨[⟨"A".toList, "A.md".toList⟩], true⟩ (by decide) (by decide)

/-- C6: the replacement token of the rewriter agrees, for every
configuration, title and matched text, with the specification's
three-case rule. -/
theorem c6_replacement_rule (settings : Settings) (title matchedText : Str) :
    replacementFor settings title matchedText = replacementSpec settings title matchedText := by
  unfold replacementFor replacementSpec
  cases h : settings.enableWikiLinks <;> simp [h]

/-- C7: the scan result is the stable sort of the discovery-ordered raw
result: it is sorted by ascending span start, and the links with any
given span start appear in their original discovery order (title
enumeration order, then left-to-right within a title). -/
theorem c7_sorted_stable (cache : List NoteEntry) (content : Str) (fuel v : Nat)
    (raw : List DetectedLink)
    (h : detectPotentialLinksRaw cache content fuel = some (ScanOutcome.ok raw)) :
    detectPotentialLinks cache content fuel = some (ScanOutcome.ok (sortByStart raw)) ∧
    (sortByStart raw).Pairwise (fun a b => a.matchIndex.1 ≤ b.matchIndex.1) ∧
    (sortByStart raw).filter (fun l => l.matchIndex.1 == v) =
      raw.filter (fun l => l.matchIndex.1 == v) := by
  refine ⟨?_, pairwise_sortByStart raw, filter_sortByStart v raw⟩
  unfold detectPotentialLinks
  simp only [h]

/-- Witness for C7 at a concrete scan with a tie on span start. -/
theorem c7_witness :
    detectPotentialLinks [⟨"ab".toList, "1.md".toList⟩, ⟨"ab cd".toList, "2.md".toList⟩]
        "ab cd".toList 7 = some (ScanOutcome.ok (sortByStart
          [⟨"ab".toList, "ab cd".toList, "ab".toList, "1.md".toList, (0, 2)⟩,
           ⟨"ab cd".toList, "ab cd".toList, "ab cd".toList, "2.md".toList, (0, 5)⟩])) ∧
    (sortByStart
        [⟨"ab".toList, "ab cd".toList, "ab".toList, "1.md".toList, (0, 2)⟩,
         ⟨"ab cd".toList, "ab cd".toList, "ab cd".toList, "2.md".toList, (0, 5)⟩]).Pairwise
      (fun a b => a.matchIndex.1 ≤ b.matchIndex.1) ∧
    (sortByStart
        [⟨"ab".toList, "ab cd".toList, "ab".toList, "1.md".toList, (0, 2)⟩,
         ⟨"ab cd".toList, "ab cd".toList, "ab cd".toList, "2.md".toList, (0, 5)⟩]).filter
      (fun l => l.matchIndex.1 == 0) =
      ([⟨"ab".toList, "ab cd".toList, "ab".toList, "1.md".toList, (0, 2)⟩,
        ⟨"ab cd".toList, "ab cd".toList, "ab cd".toList, "2.md".toList, (0, 5)⟩] :
        List DetectedLink).filter (fun l => l.matchIndex.1 == 0) :=
  c7_sorted_stable [⟨"ab".toList, "1.md".toList⟩, ⟨"ab cd".toList, "2.md".toList⟩]
    "ab cd".toList 7 0
    [⟨"ab".toList, "ab cd".toList, "ab".toList, "1.md".toList, (0, 2)⟩,
     ⟨"ab cd".toList, "ab cd".toList, "ab cd".toList, "2.md".toList, (0, 5)⟩]
    (by decide)

/-- C8: counterexample — with the title set containing "X" and "]] b",
rewriting "a X b" produces "a [[X]] b", and re-scanning with the same
titles emits a new occurrence of "]] b" at span [5, 9), which overlaps
the replaced span [2, 7): the replaced text can be re-matched across the
inserted closing brackets, so re-scanning is not free of new occurrences
at the replaced spans. -/
theorem c8_counterexample :
    detectPotentialLinks [⟨"X".toList, "x.md".toList⟩, ⟨"]] b".toList, "y.md".toList⟩]
        "a X b".toList 7 = some (ScanOutcome.ok
          [⟨"X".toList, "a X b".toList, "X".toList, "x.md".toList, (2, 3)⟩]) ∧
    insertLinks defaultSettings "a X b".toList
        [⟨"X".toList, "a X b".toList, "X".toList, "x.md".toList, (2, 3)⟩] =
      RewriteOutcome.ok "a [[X]] b".toList ∧
    detectPotentialLinks [⟨"X".toList, "x.md".toList⟩, ⟨"]] b".toList, "y.md".toList⟩]
        "a [[X]] b".toList 11 = some (ScanOutcome.ok
          [⟨"]] b".toList, "a [[X]] b".toList, "]] b".toList, "y.md".toList, (5, 9)⟩]) :=
  ⟨by decide, by decide, by decide⟩

/-- C8 (amended): the replaced text itself is never re-matched — the
scanner emits no occurrence whose span starts at a position immediately
preceded by an opening double-bracket token, which is where every
rewritten occurrence's title now sits — and re-scanning the example
rewrite with its own title yields zero occurrences; only titles that
themselves contain bracket characters can newly match across the
inserted brackets. -/
theorem c8_no_rematch_after_open (cache : List NoteEntry) (content : Str) (fuel : Nat)
    (links : List DetectedLink) (l : DetectedLink)
    (h1 : detectPotentialLinks cache content fuel = some (ScanOutcome.ok links))
    (h2 : 2 ≤ l.matchIndex.1)
    (h3 : chStarts ['[', '['] (content.drop (l.matchIndex.1 - 2)) = true) :
    l ∉ links ∧
    (insertLinks defaultSettings "a X b".toList
        [⟨"X".toList, "a X b".toList, "X".toList, "x.md".toList, (2, 3)⟩] =
      RewriteOutcome.ok "a [[X]] b".toList ∧
    detectPotentialLinks [⟨"X".toList, "x.md".toList⟩] "a [[X]] b".toList 11 =
      some (ScanOutcome.ok [])) := by
  refine ⟨?_, by decide, by decide⟩
  intro hmem
  have hlb := (detect_mem h1 l hmem).1
  unfold lookbehindOk at hlb
  rw [decide_eq_true h2, h3] at hlb
  simp at hlb

/-- Witness for C8 at a concrete position preceded by an opening
double-bracket token. -/
theorem c8_witness :
    (⟨"X".toList, "a [[X]] b".toList, "X".toList, "x.md".toList, (4, 5)⟩ : DetectedLink) ∉
      ([] : List DetectedLink) ∧
    (insertLinks defaultSettings "a X b".toList
        [⟨"X".toList, "a X b".toList, "X".toList, "x.md".toList, (2, 3)⟩] =
      RewriteOutcome.ok "a [[X]] b".toList ∧
    detectPotentialLinks [⟨"X".toList, "x.md".toList⟩] "a [[X]] b".toList 11 =
      some (ScanOutcome.ok [])) :=
  c8_no_rematch_after_open [⟨"X".toList, "x.md".toList⟩] "a [[X]] b".toList 11 []
    ⟨"X".toList, "a [[X]] b".toList, "X".toList, "x.md".toList, (4, 5)⟩
    (by decide) (by decide) (by decide)

/-- C9: with the metadata-block exclusion enabled, the example text
yields exactly the one occurrence after the block, and a text that does
not begin with the opening marker at offset 0 is never stripped. -/
theorem c9_frontmatter (content : Str) (h : chStarts ['-', '-', '-'] content = false) :
    runScan defaultSettings [⟨"Project Alpha".toList, "p.md".toList⟩]
        "---\nkey: Project Alpha\n---\nProject Alpha is great".toList 60 =
      some (ScanOutcome.ok [⟨"Project Alpha".toList, "Project Alpha is great".toList,
        "Project Alpha".toList, "p.md".toList, (0, 13)⟩]) ∧
    removeFrontmatter content = content := by
  refine ⟨by decide, ?_⟩
  unfold removeFrontmatter
  rw [h]
  simp

/-- Witness for C9 at a concrete unstripped text. -/
theorem c9_witness :
    runScan defaultSettings [⟨"Project Alpha".toList, "p.md".toList⟩]
        "---\nkey: Project Alpha\n---\nProject Alpha is great".toList 60 =
      some (ScanOutcome.ok [⟨"Project Alpha".toList, "Project Alpha is great".toList,
        "Project Alpha".toList, "p.md".toList, (0, 13)⟩]) ∧
    removeFrontmatter "abc".toList = "abc".toList :=
  c9_frontmatter "abc".toList (by decide)

/-- C10: with every cached title non-empty the scan terminates (fuel
proportional to the text length already returns a result), and with an
empty cached title — all cached patterns compiling — the zero-length
match never advances and no amount of fuel produces a result. -/
theorem c10_termination (cache1 cache2 : List NoteEntry) (content1 content2 : Str)
    (fuel : Nat)
    (h1 : ∀ n ∈ cache1, n.title ≠ [])
    (h2 : ∀ n ∈ cache2, (compileScanPattern n.title).isSome)
    (h3 : ∃ n ∈ cache2, n.title = []) :
    (detectPotentialLinks cache1 content1 (content1.length + 2)).isSome ∧
    detectPotentialLinks cache2 content2 fuel = none :=
  ⟨detect_isSome h1, detect_empty_none h2 h3⟩

/-- Witness for C10 at concrete caches. -/
theorem c10_witness :
    (detectPotentialLinks [⟨"A".toList, "a.md".toList⟩] "A A".toList
      ("A A".toList.length + 2)).isSome ∧
    detectPotentialLinks [⟨[], "e.md".toList⟩] "hello".toList 5 = none :=
  c10_termination [⟨"A".toList, "a.md".toList⟩] [⟨[], "e.md".toList⟩]
    "A A".toList "hello".toList 5 (by decide) (by decide)
    ⟨⟨[], "e.md".toList⟩, by decide, rfl⟩


